import Mathlib

/-!
Shallow embedding of `git-diff-loc` (`src/main.rs`): the diff-parsing and
line-classification pipeline.  Rust strings are modelled as `List Char`
(`Str` below); Rust's `char::is_whitespace` / `is_alphanumeric` /
`to_lowercase` are modelled by Lean's `Char.isWhitespace` /
`Char.isAlphanum` / `Char.toLower` (they agree on the ASCII inputs that
matter for every claim here).  Paths are plain strings; `std::path::Path`
component iteration is modelled by splitting on the separator character
and dropping empty and current-directory components, which matches
`Path::components` on the relative UTF-8 paths the parser produces.
-/

namespace GitDiffLoc

/-- A Rust string slice, modelled as its list of characters. -/
abbrev Str := List Char

/-- Literal helper: the character list of a Lean string literal. -/
def strOf (s : String) : Str := s.toList

/-- Rust `str::trim` at the start: drop leading whitespace. -/
def trimStart (s : Str) : Str := s.dropWhile Char.isWhitespace

/-- Rust `str::trim`: drop leading and trailing whitespace. -/
def trim (s : Str) : Str := ((trimStart s).reverse.dropWhile Char.isWhitespace).reverse

/-- Accumulator for `splitWhitespace`: `acc` holds the chars of the pending
token in reverse order. -/
def splitWhitespaceAux : Str → Str → List Str
  | [], acc => if acc.isEmpty then [] else [acc.reverse]
  | c :: rest, acc =>
    if c.isWhitespace then
      if acc.isEmpty then splitWhitespaceAux rest []
      else acc.reverse :: splitWhitespaceAux rest []
    else splitWhitespaceAux rest (c :: acc)

/-- Rust `str::split_whitespace`: split on whitespace runs, no empty tokens. -/
def splitWhitespace (s : Str) : List Str := splitWhitespaceAux s []

/-- Accumulator-style split on a character class, keeping empty pieces
(models Rust `str::split('/')`). -/
def splitOnCharAux (sep : Char) : Str → Str → List Str
  | [], acc => [acc.reverse]
  | c :: rest, acc =>
    if c = sep then acc.reverse :: splitOnCharAux sep rest []
    else splitOnCharAux sep rest (c :: acc)

/-- Split a string on every occurrence of `sep`. -/
def splitOnChar (sep : Char) (s : Str) : List Str := splitOnCharAux sep s []

/-- Rust `str::trim_start_matches("b/")`: repeatedly remove a leading `b/`. -/
def trimStartMatchesB : Str → Str
  | 'b' :: '/' :: rest => trimStartMatchesB rest
  | s => s

/-- Substring after the last dot (the Rust `&filename[ext_pos + 1..]` with
`ext_pos = filename.rfind(dot)`); meaningful only when a dot is present. -/
def afterLastDot (s : Str) : Str := (s.reverse.takeWhile (fun c => c ≠ '.')).reverse

/-- Substring before the last dot (used for `Path::file_stem`). -/
def beforeLastDot (s : Str) : Str := (((s.reverse).dropWhile (fun c => c ≠ '.')).drop 1).reverse

/-- The `Language` enum of `src/main.rs`. -/
inductive Language
  | Rust | CCpp | Go | Python | JavaScript | TypeScript | Java
  | CMake | Shell | Ruby | Markdown | Text | Dotfiles | Unknown
  deriving DecidableEq, Repr

/-- The extension table inside `Language::from_filename` (the `match` on the
lower-cased extension). -/
def extTable (ext : Str) : Language :=
  if ext = strOf "rs" then .Rust
  else if ext = strOf "c" ∨ ext = strOf "h" ∨ ext = strOf "cpp" ∨ ext = strOf "cc" ∨
          ext = strOf "cxx" ∨ ext = strOf "hpp" ∨ ext = strOf "hxx" then .CCpp
  else if ext = strOf "go" then .Go
  else if ext = strOf "py" then .Python
  else if ext = strOf "js" ∨ ext = strOf "jsx" then .JavaScript
  else if ext = strOf "ts" ∨ ext = strOf "tsx" then .TypeScript
  else if ext = strOf "java" then .Java
  else if ext = strOf "cmake" then .CMake
  else if ext = strOf "sh" ∨ ext = strOf "bash" then .Shell
  else if ext = strOf "rb" then .Ruby
  else if ext = strOf "md" ∨ ext = strOf "markdown" then .Markdown
  else if ext = strOf "txt" then .Text
  else .Unknown

/-- `Language::from_filename`. -/
def Language.from_filename (filename : Str) : Language :=
  let lower := filename.map Char.toLower
  if lower = strOf "cmakelists.txt" then .CMake
  else if filename.head? = some '.' ∧ ¬ (filename.drop 1).contains '.' then .Dotfiles
  else if filename.contains '.' then extTable ((afterLastDot filename).map Char.toLower)
  else .Unknown

/-- `Language::comment_prefixes`. -/
def Language.comment_prefixes : Language → List Str
  | .Rust | .CCpp | .Go | .JavaScript | .TypeScript | .Java => [strOf "//"]
  | .Python | .CMake | .Shell | .Ruby | .Dotfiles => [strOf "#"]
  | .Markdown | .Text => []
  | .Unknown => [strOf "//"]

/-- `Language::name`, the display name used for sorting rows. -/
def Language.name : Language → String
  | .Rust => "Rust"
  | .CCpp => "C/C++"
  | .Go => "Go"
  | .Python => "Python"
  | .JavaScript => "JavaScript"
  | .TypeScript => "TypeScript"
  | .Java => "Java"
  | .CMake => "CMake"
  | .Shell => "Shell"
  | .Ruby => "Ruby"
  | .Markdown => "Markdown"
  | .Text => "Text"
  | .Dotfiles => "Dotfiles"
  | .Unknown => "Unknown"

/-- The `LineType` enum. -/
inductive LineType
  | Code | Comment
  deriving DecidableEq, Repr

/-- The `Stats` struct: four change counters. -/
structure Stats where
  added : Nat
  removed : Nat
  test_added : Nat
  test_removed : Nat
  deriving DecidableEq, Repr

/-- `Stats::default()`: all counters zero. -/
def Stats.init : Stats := ⟨0, 0, 0, 0⟩

/-- `Stats::total`: production added plus removed. -/
def Stats.total (s : Stats) : Nat := s.added + s.removed

/-- `Stats::test_total`: test added plus removed. -/
def Stats.test_total (s : Stats) : Nat := s.test_added + s.test_removed

/-- Path components, modelling `Path::components` on a relative UTF-8 path:
split on the separator, drop empty pieces and lone-dot pieces. -/
def pathComponents (p : Str) : List Str :=
  (splitOnChar '/' p).filter (fun c => ¬ c.isEmpty ∧ c ≠ strOf ".")

/-- `Path::file_name`: the last component, unless it is a parent-directory
component. -/
def fileName (p : Str) : Option Str :=
  match (pathComponents p).getLast? with
  | some c => if c = strOf ".." then none else some c
  | none => none

/-- `Path::file_stem`: the file name minus its final extension; a name whose
only dot is the leading one keeps the whole name. -/
def fileStem (p : Str) : Option Str :=
  match fileName p with
  | none => none
  | some name =>
    if (name.drop 1).contains '.' then some (beforeLastDot name) else some name

/-- `is_test_file` from `src/main.rs`. -/
def is_test_file (file_path : Str) : Bool :=
  ((pathComponents file_path).any (fun c =>
      let lower := c.map Char.toLower
      lower = strOf "test" ∨ lower = strOf "tests"))
  ||
  (match fileStem file_path with
   | some stem =>
      let lower := stem.map Char.toLower
      (strOf "_test").isSuffixOf lower || (strOf "_tests").isSuffixOf lower ||
      (strOf "-test").isSuffixOf lower || (strOf "-tests").isSuffixOf lower
   | none => false)

/-- `detect_language`: classify the path's file-name component, `Unknown`
when there is none. -/
def detect_language (file_path : Str) : Language :=
  match fileName file_path with
  | some name => Language.from_filename name
  | none => Language.Unknown

/-- `classify_line`: `Comment` when the (pre-trimmed) line starts with one of
the language's comment prefixes, else `Code`. -/
def classify_line (line : Str) (language : Language) : LineType :=
  if language.comment_prefixes.any (fun p => p.isPrefixOf line) then .Comment else .Code

/-- `is_empty_line`: empty after trimming, or no alphanumeric character. -/
def is_empty_line (line : Str) : Bool :=
  line.isEmpty || ! line.any Char.isAlphanum

/-- The per-language code-stats map, modelling `HashMap<Language, Stats>` as
an association list with distinct keys. -/
abbrev StatsMap := List (Language × Stats)

/-- `HashMap::entry(lang).or_insert_with(Stats::default)` followed by a
mutation `f` of that entry. -/
def updateStats (m : StatsMap) (lang : Language) (f : Stats → Stats) : StatsMap :=
  match m with
  | [] => [(lang, f Stats.init)]
  | (l, s) :: rest =>
    if l = lang then (l, f s) :: rest else (l, s) :: updateStats rest lang f

/-- Lookup in the stats map. -/
def lookupStats (m : StatsMap) (lang : Language) : Option Stats :=
  match m with
  | [] => none
  | (l, s) :: rest => if l = lang then some s else lookupStats rest lang

/-- Bump the counter of `s` selected by test/added flags (the four-way
`if is_test / if is_added` in `classify_and_count`). -/
def Stats.bump (s : Stats) (is_test is_added : Bool) : Stats :=
  if is_test then
    if is_added then { s with test_added := s.test_added + 1 }
    else { s with test_removed := s.test_removed + 1 }
  else
    if is_added then { s with added := s.added + 1 }
    else { s with removed := s.removed + 1 }

/-- `classify_and_count`: returns the updated `(code_stats, comment_stats)`
pair instead of mutating in place. -/
def classify_and_count (line : Str) (file_path : Str)
    (code_stats : StatsMap) (comment_stats : Stats) (is_added : Bool) :
    StatsMap × Stats :=
  let trimmed := trim line
  if is_empty_line trimmed then (code_stats, comment_stats)
  else
    let language := detect_language file_path
    let line_type := classify_line trimmed language
    let is_test := is_test_file file_path
    match line_type with
    | .Code => (updateStats code_stats language (fun s => s.bump is_test is_added), comment_stats)
    | .Comment => (code_stats, comment_stats.bump is_test is_added)

/-- `extract_file_path`: the 4th whitespace token with leading `b/`
repeatedly trimmed, `none` for fewer than 4 tokens. -/
def extract_file_path (diff_line : Str) : Option Str :=
  match splitWhitespace diff_line with
  | _ :: _ :: _ :: d :: _ => some (trimStartMatchesB d)
  | _ => none

/-- The mutable state of `parse_diff`: the current file plus both
accumulators. -/
structure ParseState where
  current_file : Option Str
  code_stats : StatsMap
  comment_stats : Stats
  deriving DecidableEq, Repr

/-- The state at the top of `main`: no current file, empty map, zero
comment counters. -/
def ParseState.init : ParseState := ⟨none, [], Stats.init⟩

/-- One iteration of the `for line in diff.lines()` loop of `parse_diff`. -/
def parseStep (st : ParseState) (line : Str) : ParseState :=
  if (strOf "diff --git").isPrefixOf line then
    { st with current_file := extract_file_path line }
  else if line.head? = some '+' ∧ ¬ (strOf "+++").isPrefixOf line then
    match st.current_file with
    | some file =>
      let r := classify_and_count (line.drop 1) file st.code_stats st.comment_stats true
      { st with code_stats := r.1, comment_stats := r.2 }
    | none => st
  else if line.head? = some '-' ∧ ¬ (strOf "---").isPrefixOf line then
    match st.current_file with
    | some file =>
      let r := classify_and_count (line.drop 1) file st.code_stats st.comment_stats false
      { st with code_stats := r.1, comment_stats := r.2 }
    | none => st
  else st

/-- `parse_diff` over an already-split list of diff lines, from a given
state. -/
def parseLinesFrom (st : ParseState) (ls : List Str) : ParseState := ls.foldl parseStep st

/-- `parse_diff` as called from `main`: start from the empty state. -/
def parse_diff (ls : List Str) : ParseState := parseLinesFrom ParseState.init ls

/-- A row of the report table: display name plus the six numeric fields, in
the order `print_results` collects them. -/
structure Row where
  name : String
  total : Nat
  added : Nat
  removed : Nat
  test_total : Nat
  test_added : Nat
  test_removed : Nat
  deriving DecidableEq, Repr

/-- The `"Comments"` row pushed first when the comment accumulator is
non-zero. -/
def commentRow (c : Stats) : Row :=
  ⟨"Comments", c.total, c.added, c.removed, c.test_total, c.test_added, c.test_removed⟩

/-- A per-language row. -/
def langRow (l : Language) (s : Stats) : Row :=
  ⟨l.name, s.total, s.added, s.removed, s.test_total, s.test_added, s.test_removed⟩

/-- The ordering used by `languages.sort_by_key(name)`. -/
def entryLe (a b : Language × Stats) : Prop := a.1.name ≤ b.1.name

instance : DecidableRel entryLe :=
  fun a b => inferInstanceAs (Decidable (a.1.name ≤ b.1.name))

/-- Sort the map entries by display name (a stable sort, like Rust's). -/
def sortEntries (entries : StatsMap) : StatsMap := List.insertionSort entryLe entries

/-- The row list of `print_results`: the comment row first if non-zero, then
the per-language rows with a non-zero total, sorted by name. -/
def buildRows (entries : StatsMap) (comment_stats : Stats) : List Row :=
  (if comment_stats.total > 0 || comment_stats.test_total > 0
   then [commentRow comment_stats] else [])
  ++ (sortEntries entries).filterMap (fun e =>
       if e.2.total > 0 || e.2.test_total > 0 then some (langRow e.1 e.2) else none)

/-- Maximum of a list of widths, 0 for the empty list (`max().unwrap_or(0)`). -/
def maxWidth (l : List Nat) : Nat := l.foldr max 0

/-- Left-pad with spaces to width `w` (`format` with right-justification). -/
def padLeft (s : String) (w : Nat) : String :=
  String.mk (List.replicate (w - s.length) ' ') ++ s

/-- Right-pad with spaces to width `w` (`format` with left-justification). -/
def padRight (s : String) (w : Nat) : String :=
  s ++ String.mk (List.replicate (w - s.length) ' ')

/-- One formatted data row (colors dropped: the spec calls styling cosmetic
and outside the functional contract). -/
def rowLine (nw tw aw rw ttw taw trw : Nat) (r : Row) : String :=
  padRight r.name nw ++ "  " ++ padLeft (toString r.total) tw
    ++ " (" ++ ("+ " ++ padLeft (toString r.added) aw)
    ++ " / " ++ ("- " ++ padLeft (toString r.removed) rw) ++ ")"
    ++ "  |  " ++ padLeft (toString r.test_total) ttw
    ++ " (" ++ ("+ " ++ padLeft (toString r.test_added) taw)
    ++ " / " ++ ("- " ++ padLeft (toString r.test_removed) trw) ++ ")"

/-- `total_code` of `print_results`: sum of production totals over the map. -/
def total_code (entries : StatsMap) : Nat := (entries.map (fun e => e.2.total)).sum

/-- `total_test` of `print_results`: sum of test totals over the map. -/
def total_test (entries : StatsMap) : Nat := (entries.map (fun e => e.2.test_total)).sum

/-- `total_all` of `print_results`: the number printed on the
`Total changes` line.  Note the source adds `comment_stats.total()` only —
the comment accumulator's test counters are not included. -/
def total_all (entries : StatsMap) (comment_stats : Stats) : Nat :=
  total_code entries + total_test entries + comment_stats.total

/-- The final `if total_all > 0` block of `print_results`: blank line,
separator of the computed width, and the `Total changes` line; empty when
`total_all` is zero. -/
def totalSection (entries : StatsMap) (comment_stats : Stats)
    (nw tw aw rw ttw taw trw : Nat) : List String :=
  if total_all entries comment_stats > 0 then
    ["",
     String.mk (List.replicate
       (nw + 2 + tw + 3 + 2 + aw + 3 + 2 + rw + 1 + 5 + ttw + 3 + 2 + taw + 3 + 2 + trw + 1) '─'),
     padRight "Total changes" nw ++ "  " ++ padLeft (toString (total_all entries comment_stats)) tw]
  else []

/-- `print_results`, producing the output lines (header, table body, and —
only when `total_all` is positive — blank line, separator, total line). -/
def print_results (code_stats : StatsMap) (comment_stats : Stats) : List String :=
  let rows := buildRows code_stats comment_stats
  let nw := maxWidth (rows.map (fun r => r.name.length))
  let tw := maxWidth (rows.map (fun r => (toString r.total).length))
  let aw := maxWidth (rows.map (fun r => (toString r.added).length))
  let rw := maxWidth (rows.map (fun r => (toString r.removed).length))
  let ttw := maxWidth (rows.map (fun r => (toString r.test_total).length))
  let taw := maxWidth (rows.map (fun r => (toString r.test_added).length))
  let trw := maxWidth (rows.map (fun r => (toString r.test_removed).length))
  let body := rows.map (rowLine nw tw aw rw ttw taw trw)
  ["", "Lines of Code Changes", ""] ++ body
    ++ totalSection code_stats comment_stats nw tw aw rw ttw taw trw

/-! ### Theorems for the claims -/

/-- The extensions the table of `Language::from_filename` maps to a known
language. -/
def knownExts : List Str :=
  (["rs", "c", "h", "cpp", "cc", "cxx", "hpp", "hxx", "go", "py", "js", "jsx",
    "ts", "tsx", "java", "cmake", "sh", "bash", "rb", "md", "markdown", "txt"]).map strOf

/-- Claim C3: `classify_language` (`Language::from_filename`) applies its
rules in priority order — case-insensitive `cmakelists.txt` gives CMake;
else a name starting with a dot and containing no further dot gives
Dotfiles; else the lower-cased substring after the last dot is mapped
through the fixed extension table, every unlisted extension giving Unknown;
a name with no dot gives Unknown — with the four concrete examples of the
spec. -/
theorem claim_C3 :
    (∀ fn : Str,
      (fn.map Char.toLower = strOf "cmakelists.txt" →
        Language.from_filename fn = .CMake)
      ∧ (fn.map Char.toLower ≠ strOf "cmakelists.txt" →
          fn.head? = some '.' → ¬ (fn.drop 1).contains '.' = true →
          Language.from_filename fn = .Dotfiles)
      ∧ (fn.map Char.toLower ≠ strOf "cmakelists.txt" →
          ¬ (fn.head? = some '.' ∧ ¬ (fn.drop 1).contains '.' = true) →
          fn.contains '.' = true →
          Language.from_filename fn = extTable ((afterLastDot fn).map Char.toLower))
      ∧ (fn.map Char.toLower ≠ strOf "cmakelists.txt" →
          ¬ (fn.head? = some '.' ∧ ¬ (fn.drop 1).contains '.' = true) →
          fn.contains '.' = false →
          Language.from_filename fn = .Unknown))
    ∧ (extTable (strOf "rs") = .Rust
       ∧ extTable (strOf "c") = .CCpp ∧ extTable (strOf "h") = .CCpp
       ∧ extTable (strOf "cpp") = .CCpp ∧ extTable (strOf "cc") = .CCpp
       ∧ extTable (strOf "cxx") = .CCpp ∧ extTable (strOf "hpp") = .CCpp
       ∧ extTable (strOf "hxx") = .CCpp
       ∧ extTable (strOf "go") = .Go ∧ extTable (strOf "py") = .Python
       ∧ extTable (strOf "js") = .JavaScript ∧ extTable (strOf "jsx") = .JavaScript
       ∧ extTable (strOf "ts") = .TypeScript ∧ extTable (strOf "tsx") = .TypeScript
       ∧ extTable (strOf "java") = .Java ∧ extTable (strOf "cmake") = .CMake
       ∧ extTable (strOf "sh") = .Shell ∧ extTable (strOf "bash") = .Shell
       ∧ extTable (strOf "rb") = .Ruby
       ∧ extTable (strOf "md") = .Markdown ∧ extTable (strOf "markdown") = .Markdown
       ∧ extTable (strOf "txt") = .Text)
    ∧ (∀ e : Str, e ∉ knownExts → extTable e = .Unknown)
    ∧ (Language.from_filename (strOf "CMakeLists.txt") = .CMake
       ∧ Language.from_filename (strOf ".gitignore") = .Dotfiles
       ∧ Language.from_filename (strOf "main.rs") = .Rust
       ∧ Language.from_filename (strOf "README") = .Unknown) := by
  refine ⟨?_, by decide, ?_, by decide⟩
  · intro fn
    refine ⟨?_, ?_, ?_, ?_⟩
    · intro h1
      show (let lower := fn.map Char.toLower; if lower = strOf "cmakelists.txt"
        then Language.CMake else _) = Language.CMake
      rw [if_pos h1]
    · intro h1 h2 h3
      show (let lower := fn.map Char.toLower; if lower = strOf "cmakelists.txt"
        then Language.CMake else _) = Language.Dotfiles
      rw [if_neg h1, if_pos ⟨h2, h3⟩]
    · intro h1 h2 h3
      show (let lower := fn.map Char.toLower; if lower = strOf "cmakelists.txt"
        then Language.CMake else _) = _
      rw [if_neg h1, if_neg h2, if_pos h3]
    · intro h1 h2 h3
      show (let lower := fn.map Char.toLower; if lower = strOf "cmakelists.txt"
        then Language.CMake else _) = Language.Unknown
      rw [if_neg h1, if_neg h2, if_neg (by rw [h3]; exact Bool.false_ne_true)]
  · intro e he
    simp only [knownExts, List.map_cons, List.map_nil, List.mem_cons,
      List.not_mem_nil, or_false, not_or] at he
    obtain ⟨h1, h2, h3, h4, h5, h6, h7, h8, h9, h10, h11, h12, h13, h14, h15,
      h16, h17, h18, h19, h20, h21, h22⟩ := he
    simp [extTable, h1, h2, h3, h4, h5, h6, h7, h8, h9, h10, h11, h12, h13,
      h14, h15, h16, h17, h18, h19, h20, h21, h22]

/-- Claim C3 witness: the theorem applied at a concrete dotfile, with its
hypotheses discharged there. -/
theorem claim_C3_witness : Language.from_filename (strOf ".bashrc") = .Dotfiles :=
  (claim_C3.1 (strOf ".bashrc")).2.1 (by decide) (by decide) (by decide)

/-- Claim C4: `classify_line` returns Comment exactly when the line starts
with one of the language's comment prefixes — a double slash for Rust,
C/C++, Go, JavaScript, TypeScript, Java and Unknown, a hash for Python,
CMake, Shell, Ruby and Dotfiles — and Markdown and Text have no prefixes,
so every line of theirs classifies as Code. -/
theorem claim_C4 :
    (∀ (line : Str) (lang : Language),
      classify_line line lang = .Comment ↔
        (((lang = .Rust ∨ lang = .CCpp ∨ lang = .Go ∨ lang = .JavaScript ∨
           lang = .TypeScript ∨ lang = .Java ∨ lang = .Unknown) ∧
            (strOf "//").isPrefixOf line = true)
         ∨ ((lang = .Python ∨ lang = .CMake ∨ lang = .Shell ∨ lang = .Ruby ∨
             lang = .Dotfiles) ∧ (strOf "#").isPrefixOf line = true)))
    ∧ classify_line (strOf "# not a comment") .Markdown = .Code := by
  refine ⟨?_, by decide⟩
  intro line lang
  cases lang <;> simp [classify_line, Language.comment_prefixes]

/-- Claim C5: `is_test_path` (`is_test_file`) holds exactly when some path
component case-insensitively equals `test` or `tests`, or the file stem
case-insensitively ends in one of the four test suffixes; with the three
concrete examples of the spec. -/
theorem claim_C5 :
    (∀ p : Str,
      is_test_file p = true ↔
        ((∃ c ∈ pathComponents p,
            c.map Char.toLower = strOf "test" ∨ c.map Char.toLower = strOf "tests")
         ∨ (∃ stem, fileStem p = some stem ∧
             ((strOf "_test").isSuffixOf (stem.map Char.toLower) = true ∨
              (strOf "_tests").isSuffixOf (stem.map Char.toLower) = true ∨
              (strOf "-test").isSuffixOf (stem.map Char.toLower) = true ∨
              (strOf "-tests").isSuffixOf (stem.map Char.toLower) = true))))
    ∧ is_test_file (strOf "src/tests/foo.rs") = true
    ∧ is_test_file (strOf "src/foo_test.py") = true
    ∧ is_test_file (strOf "src/foo.rs") = false := by
  refine ⟨?_, by decide, by decide, by decide⟩
  intro p
  unfold is_test_file
  cases h : fileStem p with
  | none => simp [h, List.any_eq_true]
  | some stem =>
    simp [h, List.any_eq_true, Bool.or_eq_true, or_assoc]

/-- Claim C7: a content line whose trimmed content is empty or has no
alphanumeric character changes no counter of any accumulator; and the
end-to-end scenario — a whitespace-only and a punctuation-only added line
leave everything zero. -/
theorem claim_C7 :
    (∀ (line file : Str) (cs : StatsMap) (com : Stats) (b : Bool),
      is_empty_line (trim line) = true →
      classify_and_count line file cs com b = (cs, com))
    ∧ parse_diff [strOf "diff --git a/x.rs b/x.rs", strOf "+   ", strOf "+!!!"]
        = { current_file := some (strOf "x.rs"), code_stats := [],
            comment_stats := Stats.init } := by
  refine ⟨?_, by decide⟩
  intro line file cs com b h
  simp [classify_and_count, h]

/-- Claim C7 witness: the theorem applied at the punctuation-only line of
the spec's scenario. -/
theorem claim_C7_witness :
    classify_and_count (strOf "!!!") (strOf "x.rs") [] Stats.init true
      = ([], Stats.init) :=
  claim_C7.1 (strOf "!!!") (strOf "x.rs") [] Stats.init true (by decide)

/-- Claim C10: a diff line beginning with the `+++` (or `---`) marker never
changes the parser state, even when it would encode a genuine content line
whose own content begins with `++` (or `--`). -/
theorem claim_C10 :
    ∀ (st : ParseState) (line : Str),
      ((strOf "+++").isPrefixOf line = true ∨ (strOf "---").isPrefixOf line = true) →
      parseStep st line = st := by
  intro st line h
  rcases h with h | h
  · obtain ⟨t, rfl⟩ := List.isPrefixOf_iff_prefix.mp h
    have c1 : (strOf "diff --git").isPrefixOf (strOf "+++" ++ t) = false := rfl
    have c2 : (strOf "+++").isPrefixOf (strOf "+++" ++ t) = true := by
      exact List.isPrefixOf_iff_prefix.mpr ⟨t, rfl⟩
    simp [parseStep, c1, c2, strOf]
  · obtain ⟨t, rfl⟩ := List.isPrefixOf_iff_prefix.mp h
    have c1 : (strOf "diff --git").isPrefixOf (strOf "---" ++ t) = false := rfl
    have c2 : (strOf "---").isPrefixOf (strOf "---" ++ t) = true := by
      exact List.isPrefixOf_iff_prefix.mpr ⟨t, rfl⟩
    simp [parseStep, c1, c2, strOf]

/-- Claim C10 witness: the theorem applied at a concrete `+++x` line, which
encodes added content `++x` but is swallowed. -/
theorem claim_C10_witness :
    parseStep { current_file := some (strOf "a.rs"), code_stats := [],
                comment_stats := Stats.init } (strOf "+++x")
      = { current_file := some (strOf "a.rs"), code_stats := [],
          comment_stats := Stats.init } :=
  claim_C10 _ (strOf "+++x") (Or.inl (by decide))

/-- A header line (fewer than 4 tokens) yields no file path. -/
theorem extract_file_path_eq_none (line : Str)
    (h : (splitWhitespace line).length < 4) : extract_file_path line = none := by
  unfold extract_file_path
  rcases hp : splitWhitespace line with _ | ⟨a, _ | ⟨b, _ | ⟨c, _ | ⟨d, rest⟩⟩⟩⟩
  · rfl
  · rfl
  · rfl
  · rfl
  · rw [hp] at h
    simp only [List.length_cons] at h
    omega

/-- A non-header line leaves a file-less parser state unchanged. -/
theorem parseStep_no_file (st : ParseState) (line : Str)
    (hcur : st.current_file = none)
    (hpre : (strOf "diff --git").isPrefixOf line = false) :
    parseStep st line = st := by
  unfold parseStep
  rw [if_neg (by rw [hpre]; exact Bool.false_ne_true)]
  by_cases h2 : line.head? = some '+' ∧ ¬ (strOf "+++").isPrefixOf line = true
  · rw [if_pos h2, hcur]
  · rw [if_neg h2]
    by_cases h3 : line.head? = some '-' ∧ ¬ (strOf "---").isPrefixOf line = true
    · rw [if_pos h3, hcur]
    · rw [if_neg h3]

/-- Folding non-header lines from a file-less state changes nothing. -/
theorem parseLinesFrom_no_file (ls : List Str) :
    ∀ st : ParseState, st.current_file = none →
    (∀ l ∈ ls, (strOf "diff --git").isPrefixOf l = false) →
    parseLinesFrom st ls = st := by
  induction ls with
  | nil => intro st _ _; rfl
  | cons l ls ih =>
    intro st hcur hall
    have h1 : parseStep st l = st :=
      parseStep_no_file st l hcur (hall l (by simp))
    show parseLinesFrom (parseStep st l) ls = st
    rw [h1]
    exact ih st hcur (fun x hx => hall x (by simp [hx]))

/-- Modelled from the claim's words, for the counterexample only: strip a
single leading `b/` from a token. -/
def stripOnceB (s : Str) : Str :=
  if (strOf "b/").isPrefixOf s then s.drop 2 else s

/-- Claim C6 counterexample: on the header `diff --git a/b/x b/b/x` the
code sets the current path to `x` (it strips `b/` repeatedly), not to the
`b/x` that stripping the 4th token's single leading `b/` prefix would
give. -/
theorem claim_C6_counterexample :
    (parseStep ParseState.init (strOf "diff --git a/b/x b/b/x")).current_file
        = some (strOf "x")
    ∧ stripOnceB (strOf "b/b/x") = strOf "b/x"
    ∧ some (strOf "x") ≠ some (strOf "b/x") := by decide

/-- Claim C6 as amended: a file-change header with fewer than 4 whitespace
tokens sets the current path to none and changes no counter; any
non-header line met with no current path (in particular every content line
before a header, or after a malformed one) leaves the state unchanged, and
so does any run of such lines; a header with at least 4 tokens sets the
current path to the 4th token with all leading `b/` prefixes repeatedly
stripped.  Parsing is a total function, so it never aborts. -/
theorem claim_C6 :
    (∀ (st : ParseState) (line : Str),
      (strOf "diff --git").isPrefixOf line = true →
      (splitWhitespace line).length < 4 →
      parseStep st line = { st with current_file := none })
    ∧ (∀ (st : ParseState) (line : Str),
      st.current_file = none →
      (strOf "diff --git").isPrefixOf line = false →
      parseStep st line = st)
    ∧ (∀ (st : ParseState) (ls : List Str),
      st.current_file = none →
      (∀ l ∈ ls, (strOf "diff --git").isPrefixOf l = false) →
      parseLinesFrom st ls = st)
    ∧ (∀ (st : ParseState) (line : Str) (a b c d : Str) (rest : List Str),
      (strOf "diff --git").isPrefixOf line = true →
      splitWhitespace line = a :: b :: c :: d :: rest →
      parseStep st line = { st with current_file := some (trimStartMatchesB d) }) := by
  refine ⟨?_, fun st line => parseStep_no_file st line,
    fun st ls h1 h2 => parseLinesFrom_no_file ls st h1 h2, ?_⟩
  · intro st line hpre hlen
    unfold parseStep
    rw [if_pos hpre, extract_file_path_eq_none line hlen]
  · intro st line a b c d rest hpre hsplit
    unfold parseStep
    rw [if_pos hpre]
    unfold extract_file_path
    rw [hsplit]

/-- Claim C6 witness: the theorem applied at a concrete valid header. -/
theorem claim_C6_witness :
    parseStep ParseState.init (strOf "diff --git a/s.rs b/s.rs")
      = { ParseState.init with current_file := some (strOf "s.rs") } :=
  claim_C6.2.2.2 ParseState.init (strOf "diff --git a/s.rs b/s.rs")
    (strOf "diff") (strOf "--git") (strOf "a/s.rs") (strOf "b/s.rs") []
    (by decide) (by decide)

/-- `total_all` splits into the per-entry grand totals plus the comment
production total. -/
theorem total_all_eq (entries : StatsMap) (c : Stats) :
    total_all entries c
      = (entries.map (fun e => e.2.total + e.2.test_total)).sum + c.total := by
  unfold total_all total_code total_test
  rw [List.sum_map_add]

/-- The grand total claim C1 asserts for the summary line: per-language
production and test totals plus both halves of the comment accumulator. -/
def claimed_total (entries : StatsMap) (comment_stats : Stats) : Nat :=
  (entries.map (fun e => e.2.total + e.2.test_total)).sum
    + comment_stats.total + comment_stats.test_total

/-- Claim C1 counterexample: for the diff adding one comment line and one
code line under `tests/foo.py`, the printed total is 1, while the sum the
claim describes (which includes the comment accumulator's test total)
is 2. -/
theorem claim_C1_counterexample :
    (total_all
        (parse_diff [strOf "diff --git a/tests/foo.py b/tests/foo.py",
          strOf "+# c", strOf "+x = 1"]).code_stats
        (parse_diff [strOf "diff --git a/tests/foo.py b/tests/foo.py",
          strOf "+# c", strOf "+x = 1"]).comment_stats = 1)
    ∧ (claimed_total
        (parse_diff [strOf "diff --git a/tests/foo.py b/tests/foo.py",
          strOf "+# c", strOf "+x = 1"]).code_stats
        (parse_diff [strOf "diff --git a/tests/foo.py b/tests/foo.py",
          strOf "+# c", strOf "+x = 1"]).comment_stats = 2)
    ∧ (1 : Nat) ≠ 2 := by decide

/-- Claim C1 as amended: the number printed on the `Total changes` line
equals the sum over all languages of their production plus test totals,
plus the comment accumulator's production total only — the comment
accumulator's test counters are excluded. -/
theorem claim_C1 (entries : StatsMap) (comment_stats : Stats) :
    total_all entries comment_stats
      = (entries.map (fun e => e.2.total + e.2.test_total)).sum
          + comment_stats.total :=
  total_all_eq entries comment_stats

/-- A sum of naturals is positive exactly when some element is. -/
theorem sum_pos_iff_exists_pos (l : List Nat) : 0 < l.sum ↔ ∃ x ∈ l, 0 < x := by
  induction l with
  | nil => simp
  | cons a l ih =>
    simp only [List.sum_cons, List.mem_cons, add_pos_iff, ih]
    constructor
    · rintro (h | ⟨x, hx, hp⟩)
      · exact ⟨a, Or.inl rfl, h⟩
      · exact ⟨x, Or.inr hx, hp⟩
    · rintro ⟨x, hx | hx, hp⟩
      · exact Or.inl (hx ▸ hp)
      · exact Or.inr ⟨x, hx, hp⟩

/-- `total_all` is positive exactly when some map entry has a nonzero
grand total or the comment production total is nonzero. -/
theorem total_all_pos_iff (entries : StatsMap) (c : Stats) :
    0 < total_all entries c ↔
      ((∃ e ∈ entries, 0 < e.2.total + e.2.test_total) ∨ 0 < c.total) := by
  rw [total_all_eq, add_pos_iff, sum_pos_iff_exists_pos]
  constructor
  · rintro (⟨x, hx, hp⟩ | h)
    · obtain ⟨e, he, rfl⟩ := List.mem_map.mp hx
      exact Or.inl ⟨e, he, hp⟩
    · exact Or.inr h
  · rintro (⟨e, he, hp⟩ | h)
    · exact Or.inl ⟨e.2.total + e.2.test_total, List.mem_map.mpr ⟨e, he, rfl⟩, hp⟩
    · exact Or.inr h

/-- Claim C2 counterexample: after a diff whose only counted line is a test
comment, the row list is non-empty (the Comments row shows a nonzero test
total), yet the renderer prints no separator and no `Total changes` line —
the output ends with the Comments row. -/
theorem claim_C2_counterexample :
    (buildRows
        (parse_diff [strOf "diff --git a/tests/foo.py b/tests/foo.py",
          strOf "+# c"]).code_stats
        (parse_diff [strOf "diff --git a/tests/foo.py b/tests/foo.py",
          strOf "+# c"]).comment_stats ≠ [])
    ∧ print_results
        (parse_diff [strOf "diff --git a/tests/foo.py b/tests/foo.py",
          strOf "+# c"]).code_stats
        (parse_diff [strOf "diff --git a/tests/foo.py b/tests/foo.py",
          strOf "+# c"]).comment_stats
      = ["", "Lines of Code Changes", "",
         "Comments  0 (+ 0 / - 0)  |  1 (+ 1 / - 0)"] := by decide

/-- Claim C2 as amended: the renderer prints the separator and the
`Total changes` line (the total section is non-empty) exactly when some
per-language entry has a nonzero production or test total, or the comment
accumulator's production total is nonzero; when the only nonzero counters
are the comment accumulator's test counters, the row list is non-empty but
the `Total changes` line is not printed. -/
theorem claim_C2 (entries : StatsMap) (comment_stats : Stats)
    (w1 w2 w3 w4 w5 w6 w7 : Nat) :
    (totalSection entries comment_stats w1 w2 w3 w4 w5 w6 w7 ≠ [] ↔
      ((∃ e ∈ entries, 0 < e.2.total + e.2.test_total) ∨ 0 < comment_stats.total))
    ∧ (0 < comment_stats.test_total → buildRows entries comment_stats ≠ []) := by
  constructor
  · rw [← total_all_pos_iff]
    unfold totalSection
    by_cases h : total_all entries comment_stats > 0
    · rw [if_pos h]
      simp [h]
    · rw [if_neg h]
      simp [h]
  · intro h
    unfold buildRows
    rw [if_pos (by simp [h])]
    simp

/-- Claim C2 witness: the theorem applied at concrete states — the total
section is non-empty for a one-entry map, and the row list is non-empty
when only the comment test counter is set. -/
theorem claim_C2_witness :
    totalSection [(Language.Rust, ⟨1, 0, 0, 0⟩)] Stats.init 1 1 1 1 1 1 1 ≠ []
    ∧ buildRows [] ⟨0, 0, 1, 0⟩ ≠ [] :=
  ⟨(claim_C2 [(Language.Rust, ⟨1, 0, 0, 0⟩)] Stats.init 1 1 1 1 1 1 1).1.mpr
      (Or.inl ⟨(Language.Rust, ⟨1, 0, 0, 0⟩), by decide, by decide⟩),
   (claim_C2 [] ⟨0, 0, 1, 0⟩ 0 0 0 0 0 0 0).2 (by decide)⟩

/-! Support for claim C8: when does a map entry exist. -/

/-- Whether a content line (already stripped of its diff marker), routed to
`file`, would be counted as a Code line of language `lang`. -/
def codeCounted (content file : Str) (lang : Language) : Bool :=
  if is_empty_line (trim content) = false
      ∧ detect_language file = lang
      ∧ classify_line (trim content) (detect_language file) = LineType.Code
  then true else false

/-- The current-file context after scanning one diff line. -/
def nextFile (cur : Option Str) (line : Str) : Option Str :=
  if (strOf "diff --git").isPrefixOf line then extract_file_path line else cur

/-- Whether one diff line, met with current-file context `cur`, contributes
a Code line of language `lang`. -/
def observes_code_line (lang : Language) (cur : Option Str) (line : Str) : Bool :=
  if (strOf "diff --git").isPrefixOf line then false
  else if (line.head? = some '+' ∧ ¬ (strOf "+++").isPrefixOf line = true)
        ∨ (line.head? = some '-' ∧ ¬ (strOf "---").isPrefixOf line = true) then
    match cur with
    | some f => codeCounted (line.drop 1) f lang
    | none => false
  else false

/-- Whether some line of the diff contributes a Code line of language
`lang`, scanning with the current-file context. -/
def observes_code (lang : Language) : Option Str → List Str → Bool
  | _, [] => false
  | cur, l :: ls =>
    observes_code_line lang cur l || observes_code lang (nextFile cur l) ls

/-- The accumulator effect of one parser step, separated from the
current-file effect. -/
def parseStepStats (cur : Option Str) (cs : StatsMap) (com : Stats) (line : Str) :
    StatsMap × Stats :=
  if (strOf "diff --git").isPrefixOf line then (cs, com)
  else if line.head? = some '+' ∧ ¬ (strOf "+++").isPrefixOf line = true then
    match cur with
    | some f => classify_and_count (line.drop 1) f cs com true
    | none => (cs, com)
  else if line.head? = some '-' ∧ ¬ (strOf "---").isPrefixOf line = true then
    match cur with
    | some f => classify_and_count (line.drop 1) f cs com false
    | none => (cs, com)
  else (cs, com)

/-- A parser step is its file effect paired with its accumulator effect. -/
theorem parseStep_eq (cur : Option Str) (cs : StatsMap) (com : Stats) (line : Str) :
    parseStep ⟨cur, cs, com⟩ line
      = ⟨nextFile cur line, (parseStepStats cur cs com line).1,
         (parseStepStats cur cs com line).2⟩ := by
  cases cur <;> (unfold parseStep parseStepStats nextFile; split_ifs <;> rfl)

/-- Looking up the key just updated gives the mutated entry. -/
theorem lookupStats_updateStats_self (m : StatsMap) (lang : Language)
    (f : Stats → Stats) :
    lookupStats (updateStats m lang f) lang
      = some (f ((lookupStats m lang).getD Stats.init)) := by
  induction m with
  | nil => simp [updateStats, lookupStats]
  | cons e rest ih =>
    obtain ⟨l, s⟩ := e
    by_cases h : l = lang
    · subst h
      simp [updateStats, lookupStats]
    · simp [updateStats, lookupStats, h, ih]

/-- Updating one key leaves lookups of other keys unchanged. -/
theorem lookupStats_updateStats_other (m : StatsMap) (lang lang2 : Language)
    (f : Stats → Stats) (h : lang2 ≠ lang) :
    lookupStats (updateStats m lang f) lang2 = lookupStats m lang2 := by
  induction m with
  | nil => simp [updateStats, lookupStats, Ne.symm h]
  | cons e rest ih =>
    obtain ⟨l, s⟩ := e
    by_cases hl : l = lang
    · subst hl
      simp [updateStats, lookupStats, Ne.symm h]
    · simp [updateStats, lookupStats, hl, ih]

/-- Bumping any of the four counters raises the grand total by one. -/
theorem bump_grand_total (s : Stats) (t a : Bool) :
    (s.bump t a).total + (s.bump t a).test_total = s.total + s.test_total + 1 := by
  cases t <;> cases a <;>
    simp [Stats.bump, Stats.total, Stats.test_total] <;> omega

/-- Effect of `classify_and_count` on one map entry: exactly when the line
counts as Code of `lang`, the entry becomes the bumped old entry (created at
zero when absent); otherwise the lookup is unchanged. -/
theorem lookup_classify_and_count (content file : Str) (cs : StatsMap)
    (com : Stats) (b : Bool) (lang : Language) :
    lookupStats (classify_and_count content file cs com b).1 lang
      = if codeCounted content file lang = true
        then some (((lookupStats cs lang).getD Stats.init).bump (is_test_file file) b)
        else lookupStats cs lang := by
  by_cases he : is_empty_line (trim content) = true
  · have h1 : classify_and_count content file cs com b = (cs, com) := by
      simp [classify_and_count, he]
    have h2 : codeCounted content file lang = false := by
      simp [codeCounted, he]
    rw [h1, h2]
    simp
  · have he' : is_empty_line (trim content) = false := Bool.eq_false_iff.mpr he
    cases hct : classify_line (trim content) (detect_language file) with
    | Comment =>
      have h1 : (classify_and_count content file cs com b).1 = cs := by
        simp [classify_and_count, he', hct]
      have h2 : codeCounted content file lang = false := by
        simp [codeCounted, hct]
      rw [h1, h2]
      simp
    | Code =>
      have h1 : (classify_and_count content file cs com b).1
          = updateStats cs (detect_language file)
              (fun s => s.bump (is_test_file file) b) := by
        simp [classify_and_count, he', hct]
      rw [h1]
      by_cases hl : detect_language file = lang
      · subst hl
        have h2 : codeCounted content file (detect_language file) = true := by
          simp [codeCounted, he', hct]
        rw [h2, lookupStats_updateStats_self]
        simp
      · have h2 : codeCounted content file lang = false := by
          simp [codeCounted, hl]
        rw [h2, lookupStats_updateStats_other cs _ _ _ (fun hh => hl hh.symm)]
        simp

/-- One parser step creates or keeps an entry for `lang` exactly when it
was there before or the line contributes a Code line of `lang`. -/
theorem parseStepStats_lookup_isSome (cur : Option Str) (cs : StatsMap)
    (com : Stats) (line : Str) (lang : Language) :
    (lookupStats (parseStepStats cur cs com line).1 lang).isSome = true ↔
      ((lookupStats cs lang).isSome = true
        ∨ observes_code_line lang cur line = true) := by
  unfold parseStepStats observes_code_line
  by_cases h1 : (strOf "diff --git").isPrefixOf line = true
  · rw [if_pos h1, if_pos h1]
    simp
  · rw [if_neg h1, if_neg h1]
    by_cases h2 : line.head? = some '+' ∧ ¬ (strOf "+++").isPrefixOf line = true
    · rw [if_pos h2, if_pos (Or.inl h2)]
      cases cur with
      | none => simp
      | some f =>
        show (lookupStats (classify_and_count (line.drop 1) f cs com true).1
            lang).isSome = true ↔ _
        rw [lookup_classify_and_count]
        by_cases hcc : codeCounted (line.drop 1) f lang = true
        · rw [if_pos hcc]
          rw [List.drop_one] at hcc
          simp [hcc]
        · rw [if_neg hcc]
          rw [List.drop_one] at hcc
          simp [hcc]
    · rw [if_neg h2]
      by_cases h3 : line.head? = some '-' ∧ ¬ (strOf "---").isPrefixOf line = true
      · rw [if_pos h3, if_pos (Or.inr h3)]
        cases cur with
        | none => simp
        | some f =>
          show (lookupStats (classify_and_count (line.drop 1) f cs com false).1
              lang).isSome = true ↔ _
          rw [lookup_classify_and_count]
          by_cases hcc : codeCounted (line.drop 1) f lang = true
          · rw [if_pos hcc]
            rw [List.drop_one] at hcc
            simp [hcc]
          · rw [if_neg hcc]
            rw [List.drop_one] at hcc
            simp [hcc]
      · rw [if_neg h3, if_neg (fun hor => hor.elim h2 h3)]
        simp

/-- Folding the parser over a line list: the entry for `lang` exists at the
end exactly when it existed at the start or some line contributed a Code
line of `lang`. -/
theorem parseLinesFrom_lookup_isSome (lang : Language) (ls : List Str) :
    ∀ st : ParseState,
      (lookupStats (parseLinesFrom st ls).code_stats lang).isSome = true ↔
        ((lookupStats st.code_stats lang).isSome = true
          ∨ observes_code lang st.current_file ls = true) := by
  induction ls with
  | nil => intro st; simp [parseLinesFrom, observes_code]
  | cons l ls ih =>
    intro st
    obtain ⟨cur, cs, com⟩ := st
    show (lookupStats (parseLinesFrom (parseStep ⟨cur, cs, com⟩ l) ls).code_stats
        lang).isSome = true ↔ _
    rw [ih (parseStep ⟨cur, cs, com⟩ l), parseStep_eq]
    show ((lookupStats (parseStepStats cur cs com l).1 lang).isSome = true
        ∨ observes_code lang (nextFile cur l) ls = true) ↔ _
    rw [parseStepStats_lookup_isSome]
    show _ ↔ ((lookupStats cs lang).isSome = true
        ∨ observes_code lang cur (l :: ls) = true)
    simp only [observes_code, Bool.or_eq_true]
    tauto

/-- `classify_and_count` keeps the invariant that the looked-up entry has a
positive grand total. -/
theorem lookup_pos_classify_and_count (content file : Str) (cs : StatsMap)
    (com : Stats) (b : Bool) (lang : Language)
    (h : ∀ s, lookupStats cs lang = some s → 1 ≤ s.total + s.test_total) :
    ∀ s, lookupStats (classify_and_count content file cs com b).1 lang = some s →
      1 ≤ s.total + s.test_total := by
  intro s hs
  rw [lookup_classify_and_count] at hs
  by_cases hcc : codeCounted content file lang = true
  · rw [if_pos hcc] at hs
    obtain rfl := (Option.some_inj.mp hs).symm
    rw [bump_grand_total]
    omega
  · rw [if_neg hcc] at hs
    exact h s hs

/-- One parser step keeps the positive-grand-total invariant. -/
theorem parseStepStats_lookup_pos (cur : Option Str) (cs : StatsMap)
    (com : Stats) (line : Str) (lang : Language)
    (h : ∀ s, lookupStats cs lang = some s → 1 ≤ s.total + s.test_total) :
    ∀ s, lookupStats (parseStepStats cur cs com line).1 lang = some s →
      1 ≤ s.total + s.test_total := by
  unfold parseStepStats
  cases cur <;> split_ifs <;>
    first
      | exact h
      | exact lookup_pos_classify_and_count _ _ _ _ _ _ h

/-- The fold keeps the positive-grand-total invariant. -/
theorem parseLinesFrom_lookup_pos (lang : Language) (ls : List Str) :
    ∀ st : ParseState,
      (∀ s, lookupStats st.code_stats lang = some s → 1 ≤ s.total + s.test_total) →
      ∀ s, lookupStats (parseLinesFrom st ls).code_stats lang = some s →
        1 ≤ s.total + s.test_total := by
  induction ls with
  | nil => intro st h; exact h
  | cons l ls ih =>
    intro st h
    obtain ⟨cur, cs, com⟩ := st
    show ∀ s, lookupStats
        (parseLinesFrom (parseStep ⟨cur, cs, com⟩ l) ls).code_stats lang = some s → _
    apply ih
    rw [parseStep_eq]
    exact parseStepStats_lookup_pos cur cs com l lang h

/-- Claim C8: after parsing any diff from the empty state, a language has an
entry in the per-language map exactly when some non-dropped content line of
a file of that language was classified as Code; and every entry present has
production total plus test total at least 1. -/
theorem claim_C8 (ls : List Str) (lang : Language) :
    ((lookupStats (parse_diff ls).code_stats lang).isSome = true ↔
      observes_code lang none ls = true)
    ∧ (∀ s, lookupStats (parse_diff ls).code_stats lang = some s →
        1 ≤ s.total + s.test_total) := by
  constructor
  · have h := parseLinesFrom_lookup_isSome lang ls ParseState.init
    simpa [parse_diff, ParseState.init, lookupStats] using h
  · exact parseLinesFrom_lookup_pos lang ls ParseState.init
      (fun s hs => by simp [ParseState.init, lookupStats] at hs)

/-- Claim C8 witness: the theorem applied at a concrete one-file diff, its
hypotheses discharged there — the Rust entry exists because a code line was
observed, and the concrete entry has grand total 1. -/
theorem claim_C8_witness :
    (lookupStats
        (parse_diff [strOf "diff --git a/a.rs b/a.rs",
          strOf "+let x = 1;"]).code_stats Language.Rust).isSome = true
    ∧ 1 ≤ (Stats.mk 1 0 0 0).total + (Stats.mk 1 0 0 0).test_total :=
  ⟨(claim_C8 [strOf "diff --git a/a.rs b/a.rs", strOf "+let x = 1;"]
      Language.Rust).1.mpr (by decide),
   (claim_C8 [strOf "diff --git a/a.rs b/a.rs", strOf "+let x = 1;"]
      Language.Rust).2 (Stats.mk 1 0 0 0) (by decide)⟩

/-! Support for claim C9: the renderer is insensitive to map order. -/

/-- The fourteen display names are pairwise distinct. -/
theorem Language.name_injective : Function.Injective Language.name := by
  intro a b h
  cases a <;> cases b <;> first | rfl | exact absurd h (by decide)

/-- Strict display-name order on map entries. -/
def entryLt (a b : Language × Stats) : Prop := a.1.name < b.1.name

instance : DecidableRel entryLt :=
  fun a b => inferInstanceAs (Decidable (a.1.name < b.1.name))

instance : IsAntisymm (Language × Stats) entryLt :=
  ⟨fun _ _ h1 h2 => (lt_asymm h1 h2).elim⟩

instance : IsTotal (Language × Stats) entryLe :=
  ⟨fun a b => le_total a.1.name b.1.name⟩

instance : IsTrans (Language × Stats) entryLe :=
  ⟨fun _ _ _ h1 h2 => le_trans h1 h2⟩

/-- A name-sorted entry list with distinct keys is strictly name-sorted. -/
theorem sorted_entryLt_of_nodup (l : StatsMap)
    (hs : List.Sorted entryLe l) (hn : (l.map (fun e => e.1)).Nodup) :
    List.Sorted entryLt l := by
  have hne : List.Pairwise (fun a b : Language × Stats => a.1 ≠ b.1) l :=
    List.pairwise_map.mp hn
  exact (List.Pairwise.and hs hne).imp
    (fun h => lt_of_le_of_ne h.1 (fun hname => h.2 (Language.name_injective hname)))

/-- Sorting by display name erases any map-iteration order: two orderings
of the same entries (with distinct keys) sort to the same list. -/
theorem sortEntries_eq_of_perm (l1 l2 : StatsMap) (hp : l1.Perm l2)
    (hn : (l1.map (fun e => e.1)).Nodup) :
    sortEntries l1 = sortEntries l2 := by
  have hp1 : (sortEntries l1).Perm l1 := List.perm_insertionSort entryLe l1
  have hp2 : (sortEntries l2).Perm l2 := List.perm_insertionSort entryLe l2
  have hperm : (sortEntries l1).Perm (sortEntries l2) :=
    hp1.trans (hp.trans hp2.symm)
  have hs1 : List.Sorted entryLe (sortEntries l1) :=
    List.sorted_insertionSort entryLe l1
  have hs2 : List.Sorted entryLe (sortEntries l2) :=
    List.sorted_insertionSort entryLe l2
  have hn1 : ((sortEntries l1).map (fun e => e.1)).Nodup :=
    ((hp1.map (fun e => e.1)).nodup_iff).mpr hn
  have hn2 : ((sortEntries l2).map (fun e => e.1)).Nodup :=
    (((hp2.map (fun e => e.1)).trans
        ((hp.map (fun e => e.1)).symm)).nodup_iff).mpr hn
  exact List.eq_of_perm_of_sorted hperm
    (sorted_entryLt_of_nodup _ hs1 hn1) (sorted_entryLt_of_nodup _ hs2 hn2)

/-- Claim C9: on a fixed accumulator state the report is deterministic —
any two iteration orders of the per-language map (distinct keys, as in a
map) render byte-identical output, because rows are sorted by display
name.  The renderer is a pure function of the state, so it cannot alter
the accumulators. -/
theorem claim_C9 (entries1 entries2 : StatsMap) (comment_stats : Stats)
    (hperm : entries1.Perm entries2)
    (hnodup : (entries1.map (fun e => e.1)).Nodup) :
    print_results entries1 comment_stats = print_results entries2 comment_stats := by
  have hsort : sortEntries entries1 = sortEntries entries2 :=
    sortEntries_eq_of_perm _ _ hperm hnodup
  have hrows : buildRows entries1 comment_stats = buildRows entries2 comment_stats := by
    unfold buildRows
    rw [hsort]
  have htc : total_code entries1 = total_code entries2 := by
    unfold total_code
    exact List.Perm.sum_eq (hperm.map (fun e => e.2.total))
  have htt : total_test entries1 = total_test entries2 := by
    unfold total_test
    exact List.Perm.sum_eq (hperm.map (fun e => e.2.test_total))
  have hta : total_all entries1 comment_stats = total_all entries2 comment_stats := by
    unfold total_all
    rw [htc, htt]
  have hts : ∀ w1 w2 w3 w4 w5 w6 w7 : Nat,
      totalSection entries1 comment_stats w1 w2 w3 w4 w5 w6 w7
        = totalSection entries2 comment_stats w1 w2 w3 w4 w5 w6 w7 := by
    intro w1 w2 w3 w4 w5 w6 w7
    unfold totalSection
    rw [hta]
  unfold print_results
  rw [hrows]
  simp only [hts]

/-- Claim C9 witness: the theorem applied at two concrete iteration orders
of a two-entry map. -/
theorem claim_C9_witness :
    print_results [(Language.Rust, ⟨1, 0, 0, 0⟩), (Language.Python, ⟨0, 1, 0, 0⟩)]
        Stats.init
      = print_results [(Language.Python, ⟨0, 1, 0, 0⟩), (Language.Rust, ⟨1, 0, 0, 0⟩)]
        Stats.init :=
  claim_C9 _ _ Stats.init (by decide) (by decide)

end GitDiffLoc
